import Mathlib

/-!
Verification of the reddit_rt_analysis streaming pipeline.

Shallow embedding of the repository's source files:
  utils.py          (clean_text)
  classifier.py     (AIClassifier.predict)
  main.py           (the streaming loop of main)
  database.py       (fix_oid, run_query, update_document, delete_document)

Python strings are modelled as `List Char`, floats as `ℚ`, dictionaries as
association lists, raised exceptions as `Except`/`Option` values.
-/

namespace RedditRT

/-! ### utils.py: clean_text -/

/-- Whitespace class of the Python regex `\s` (ASCII range) and of `str.strip`. -/
def isSpaceB (c : Char) : Bool :=
  c = ' ' || c = '\t' || c = '\n' || c = '\r' || c = '\x0b' || c = '\x0c'

/-- Does the text start with the pattern characters `pat` followed by at least one
non-whitespace character?  `startsPat ['h','t','t','p'] l` is exactly "the regex
`http\S+` matches at the start of `l`". -/
def startsPat : List Char → List Char → Bool
  | [], [] => false
  | [], c :: _ => !isSpaceB c
  | _ :: _, [] => false
  | p :: ps, c :: cs => c = p && startsPat ps cs

/-- The regex `http\S+` (utils.py line 30) matches at the start of `l`. -/
def startsHttp (l : List Char) : Bool :=
  startsPat ['h', 't', 't', 'p'] l

/-- Drop the maximal leading run of non-whitespace characters (the greedy `\S+`). -/
def dropWord (l : List Char) : List Char :=
  l.dropWhile (fun c => !isSpaceB c)

/-- Fuel-indexed left-to-right scan of `re.sub(r'http\S+', '', text)`:
at each position, if `http\S+` matches, delete the match (the four pattern
characters plus the maximal non-whitespace run) and continue scanning after it;
otherwise keep the character.  The fuel only serves structural recursion. -/
def removeUrlsF : Nat → List Char → List Char
  | 0, l => l
  | _ + 1, [] => []
  | fuel + 1, c :: cs =>
    if startsHttp (c :: cs) then removeUrlsF fuel (dropWord (cs.drop 3))
    else c :: removeUrlsF fuel cs

/-- `re.sub(r'http\S+', '', text)` (utils.py line 30). -/
def removeUrls (l : List Char) : List Char :=
  removeUrlsF l.length l

/-- Python `str.lstrip()` on the modelled whitespace class. -/
def lstrip (l : List Char) : List Char :=
  l.dropWhile isSpaceB

/-- Python `str.rstrip()` on the modelled whitespace class. -/
def rstrip (l : List Char) : List Char :=
  (l.reverse.dropWhile isSpaceB).reverse

/-- Python `str.strip()` (utils.py line 33). -/
def strip (l : List Char) : List Char :=
  rstrip (lstrip l)

/-- Fuel-indexed `re.sub(r'\s+', ' ', text)`: each maximal whitespace run becomes
a single space. -/
def collapseF : Nat → List Char → List Char
  | 0, l => l
  | _ + 1, [] => []
  | fuel + 1, c :: cs =>
    if isSpaceB c then ' ' :: collapseF fuel (lstrip cs)
    else c :: collapseF fuel cs

/-- `re.sub(r'\s+', ' ', text)` (utils.py line 34). -/
def collapse (l : List Char) : List Char :=
  collapseF l.length l

/-- utils.py lines 22-36: `clean_text`.  Empty (falsy) input returns the empty
string; otherwise URLs are removed, then the text is stripped, then whitespace
runs are collapsed. -/
def clean_text (text : List Char) : List Char :=
  if text = [] then []
  else collapse (strip (removeUrls text))

/-! ### Basic facts about the clean_text scanners -/

/-- An occurrence of the regex `http\S+` exists somewhere in the text. -/
def hasUrl : List Char → Bool
  | [] => false
  | c :: cs => startsHttp (c :: cs) || hasUrl cs

/-- The head of the list is a whitespace character (false on the empty list). -/
def spaceHeadB : List Char → Bool
  | [] => false
  | c :: _ => isSpaceB c

/-- The last element of the list is a whitespace character (false on empty). -/
def lastSpaceB : List Char → Bool
  | [] => false
  | [c] => isSpaceB c
  | _ :: c :: cs => lastSpaceB (c :: cs)

/-- The suffixes of the pattern `['t','t','p']`, as encountered while scanning
the pattern of `startsHttp` one character at a time. -/
def PatOk (pat : List Char) : Prop :=
  pat = [] ∨ pat = ['p'] ∨ pat = ['t', 'p'] ∨ pat = ['t', 't', 'p']

theorem dropWhile_length_le (p : Char → Bool) (l : List Char) :
    (List.dropWhile p l).length ≤ l.length := by
  induction l with
  | nil => simp [List.dropWhile]
  | cons c cs ih =>
    by_cases h : p c
    · simp only [List.dropWhile_cons, h, if_true]
      exact le_trans ih (by simp)
    · simp [List.dropWhile_cons, h]

theorem dropWord_length_le (cs : List Char) :
    (dropWord (cs.drop 3)).length ≤ cs.length := by
  refine le_trans (dropWhile_length_le _ _) ?_
  simp [List.length_drop]

theorem removeUrlsF_congr :
    ∀ (f g : Nat) (l : List Char), l.length ≤ f → l.length ≤ g →
      removeUrlsF f l = removeUrlsF g l := by
  intro f
  induction f with
  | zero =>
    intro g l hf _
    have hl : l = [] := List.eq_nil_of_length_eq_zero (Nat.le_zero.mp hf)
    subst hl
    cases g <;> rfl
  | succ f ih =>
    intro g l hf hg
    cases l with
    | nil => cases g <;> rfl
    | cons c cs =>
      cases g with
      | zero => simp at hg
      | succ g =>
        simp only [List.length_cons, Nat.add_le_add_iff_right] at hf hg
        simp only [removeUrlsF]
        by_cases h : startsHttp (c :: cs) = true
        · simp only [h, if_true]
          exact ih g _ (le_trans (dropWord_length_le cs) hf)
            (le_trans (dropWord_length_le cs) hg)
        · simp only [h, if_false]
          exact congrArg (c :: ·) (ih g cs hf hg)

theorem removeUrls_nil : removeUrls [] = [] := rfl

theorem removeUrls_cons_pos {c : Char} {cs : List Char}
    (h : startsHttp (c :: cs) = true) :
    removeUrls (c :: cs) = removeUrls (dropWord (cs.drop 3)) := by
  simp only [removeUrls, List.length_cons, removeUrlsF, h, if_true]
  exact removeUrlsF_congr _ _ _ (dropWord_length_le cs) le_rfl

theorem removeUrls_cons_neg {c : Char} {cs : List Char}
    (h : startsHttp (c :: cs) = false) :
    removeUrls (c :: cs) = c :: removeUrls cs := by
  simp only [removeUrls, List.length_cons, removeUrlsF, h, Bool.false_eq_true, if_false]

theorem collapseF_congr :
    ∀ (f g : Nat) (l : List Char), l.length ≤ f → l.length ≤ g →
      collapseF f l = collapseF g l := by
  intro f
  induction f with
  | zero =>
    intro g l hf _
    have hl : l = [] := List.eq_nil_of_length_eq_zero (Nat.le_zero.mp hf)
    subst hl
    cases g <;> rfl
  | succ f ih =>
    intro g l hf hg
    cases l with
    | nil => cases g <;> rfl
    | cons c cs =>
      cases g with
      | zero => simp at hg
      | succ g =>
        simp only [List.length_cons, Nat.add_le_add_iff_right] at hf hg
        simp only [collapseF]
        by_cases h : isSpaceB c = true
        · simp only [h, if_true]
          exact congrArg (' ' :: ·)
            (ih g _ (le_trans (dropWhile_length_le _ cs) hf)
              (le_trans (dropWhile_length_le _ cs) hg))
        · simp only [h, if_false]
          exact congrArg (c :: ·) (ih g cs hf hg)

theorem collapse_nil : collapse [] = [] := rfl

theorem collapse_cons_space {c : Char} {cs : List Char} (h : isSpaceB c = true) :
    collapse (c :: cs) = ' ' :: collapse (lstrip cs) := by
  simp only [collapse, List.length_cons, collapseF, h, if_true, lstrip]
  exact congrArg (' ' :: ·)
    (collapseF_congr _ _ _ (dropWhile_length_le _ cs) le_rfl)

theorem collapse_cons_char {c : Char} {cs : List Char} (h : isSpaceB c = false) :
    collapse (c :: cs) = c :: collapse cs := by
  simp only [collapse, List.length_cons, collapseF, h, Bool.false_eq_true, if_false]

/-! ### No new URL occurrence is created by removeUrls, strip or collapse -/

theorem startsHttp_eq (c : Char) (cs : List Char) :
    startsHttp (c :: cs) = (decide (c = 'h') && startsPat ['t', 't', 'p'] cs) := rfl

theorem dropWord_spaceHead (l : List Char) :
    dropWord l = [] ∨ spaceHeadB (dropWord l) = true := by
  induction l with
  | nil => left; rfl
  | cons c cs ih =>
    by_cases h : isSpaceB c = true
    · right; simp [dropWord, List.dropWhile_cons, h, spaceHeadB]
    · simpa [dropWord, List.dropWhile_cons, h] using ih

theorem startsHttp_of_spaceHead {l : List Char} (h : spaceHeadB l = true) :
    startsHttp l = false := by
  cases l with
  | nil => simp [spaceHeadB] at h
  | cons c cs =>
    have hc : c ≠ 'h' := by
      intro e
      rw [e] at h
      simp [spaceHeadB] at h
      exact absurd h (by decide)
    simp [startsHttp_eq, hc]

theorem spaceHead_removeUrls {l : List Char} (h : spaceHeadB l = true) :
    spaceHeadB (removeUrls l) = true := by
  cases l with
  | nil => simp [spaceHeadB] at h
  | cons c cs =>
    rw [removeUrls_cons_neg (startsHttp_of_spaceHead h)]
    exact h

theorem startsPat_spaceHead {pat : List Char} (hp : PatOk pat) {l : List Char}
    (hl : l = [] ∨ spaceHeadB l = true) : startsPat pat l = false := by
  rcases hl with hl | hl
  · subst hl
    rcases hp with h | h | h | h <;> subst h <;> rfl
  · cases l with
    | nil => simp [spaceHeadB] at hl
    | cons c cs =>
      have hc : isSpaceB c = true := hl
      rcases hp with h | h | h | h <;> subst h
      · simpa [startsPat] using hc
      all_goals
        have : c ≠ 'p' ∧ c ≠ 't' := by
          constructor <;> intro e <;> rw [e] at hc <;> exact absurd hc (by decide)
        simp [startsPat, this.1, this.2]

theorem startsPat_removeUrls :
    ∀ (n : Nat) (l : List Char), l.length ≤ n → ∀ pat, PatOk pat →
      startsPat pat l = false → startsPat pat (removeUrls l) = false := by
  intro n
  induction n with
  | zero =>
    intro l hl pat hp h
    have : l = [] := List.eq_nil_of_length_eq_zero (Nat.le_zero.mp hl)
    subst this
    simpa [removeUrls_nil] using h
  | succ n ih =>
    intro l hl pat hp h
    cases l with
    | nil => simpa [removeUrls_nil] using h
    | cons c cs =>
      simp only [List.length_cons, Nat.add_le_add_iff_right] at hl
      by_cases hs : startsHttp (c :: cs) = true
      · rw [removeUrls_cons_pos hs]
        rcases dropWord_spaceHead (cs.drop 3) with hd | hd
        · rw [hd, removeUrls_nil]
          exact startsPat_spaceHead hp (Or.inl rfl)
        · exact startsPat_spaceHead hp (Or.inr (spaceHead_removeUrls hd))
      · rw [removeUrls_cons_neg (by simpa using hs)]
        rcases hp with h0 | h0 | h0 | h0 <;> subst h0
        · simpa [startsPat] using h
        · simp only [startsPat] at h ⊢
          rcases Bool.and_eq_false_iff.mp h with h1 | h1
          · simp [h1]
          · rw [ih cs hl [] (Or.inl rfl) h1, Bool.and_false]
        · simp only [startsPat] at h ⊢
          rcases Bool.and_eq_false_iff.mp h with h1 | h1
          · simp [h1]
          · rw [ih cs hl ['p'] (by simp [PatOk]) h1, Bool.and_false]
        · simp only [startsPat] at h ⊢
          rcases Bool.and_eq_false_iff.mp h with h1 | h1
          · simp [h1]
          · rw [ih cs hl ['t', 'p'] (by simp [PatOk]) h1, Bool.and_false]

theorem hasUrl_removeUrls :
    ∀ (n : Nat) (l : List Char), l.length ≤ n → hasUrl (removeUrls l) = false := by
  intro n
  induction n with
  | zero =>
    intro l hl
    have : l = [] := List.eq_nil_of_length_eq_zero (Nat.le_zero.mp hl)
    subst this
    rfl
  | succ n ih =>
    intro l hl
    cases l with
    | nil => rfl
    | cons c cs =>
      simp only [List.length_cons, Nat.add_le_add_iff_right] at hl
      by_cases hs : startsHttp (c :: cs) = true
      · rw [removeUrls_cons_pos hs]
        exact ih _ (le_trans (dropWord_length_le cs) hl)
      · replace hs : startsHttp (c :: cs) = false := by simpa using hs
        rw [removeUrls_cons_neg hs]
        show (startsHttp (c :: removeUrls cs) || hasUrl (removeUrls cs)) = false
        rw [ih cs hl, Bool.or_false]
        rw [startsHttp_eq] at hs ⊢
        rcases Bool.and_eq_false_iff.mp hs with h1 | h1
        · simp [h1]
        · rw [startsPat_removeUrls cs.length cs le_rfl _ (by simp [PatOk]) h1,
            Bool.and_false]

theorem hasUrl_removeUrls_all (l : List Char) : hasUrl (removeUrls l) = false :=
  hasUrl_removeUrls l.length l le_rfl

theorem removeUrls_eq_self : ∀ l : List Char, hasUrl l = false → removeUrls l = l := by
  intro l
  induction l with
  | nil => intro _; rfl
  | cons c cs ih =>
    intro h
    have h' : (startsHttp (c :: cs) || hasUrl cs) = false := h
    rcases Bool.or_eq_false_iff.mp h' with ⟨h1, h2⟩
    rw [removeUrls_cons_neg h1, ih h2]

theorem startsPat_append (pat : List Char) :
    ∀ (a b : List Char), startsPat pat a = true → startsPat pat (a ++ b) = true := by
  induction pat with
  | nil =>
    intro a b h
    cases a with
    | nil => simp [startsPat] at h
    | cons c cs => exact h
  | cons p ps ih =>
    intro a b h
    cases a with
    | nil => simp [startsPat] at h
    | cons c cs =>
      simp only [startsPat, Bool.and_eq_true] at h
      simp only [List.cons_append, startsPat, Bool.and_eq_true]
      exact ⟨h.1, ih cs b h.2⟩

theorem hasUrl_append_left :
    ∀ (a b : List Char), hasUrl a = true → hasUrl (a ++ b) = true := by
  intro a
  induction a with
  | nil => intro b h; simp [hasUrl] at h
  | cons c cs ih =>
    intro b h
    have h' : (startsHttp (c :: cs) || hasUrl cs) = true := h
    show (startsHttp (c :: cs ++ b) || hasUrl (cs ++ b)) = true
    rcases Bool.or_eq_true_iff.mp h' with h1 | h1
    · have h2 : startsHttp ((c :: cs) ++ b) = true := startsPat_append _ _ b h1
      rw [h2, Bool.true_or]
    · rw [ih b h1, Bool.or_true]

theorem hasUrl_append_right :
    ∀ (a b : List Char), hasUrl b = true → hasUrl (a ++ b) = true := by
  intro a
  induction a with
  | nil => intro b h; simpa using h
  | cons c cs ih =>
    intro b h
    show (startsHttp (c :: cs ++ b) || hasUrl (cs ++ b)) = true
    rw [ih b h, Bool.or_true]

theorem hasUrl_lstrip {l : List Char} (h : hasUrl l = false) :
    hasUrl (lstrip l) = false := by
  obtain ⟨a, ha⟩ := List.dropWhile_suffix (l := l) isSpaceB
  cases hu : hasUrl (lstrip l) with
  | false => rfl
  | true =>
    have : hasUrl l = true := by
      rw [← ha]
      exact hasUrl_append_right a _ hu
    rw [this] at h
    exact absurd h (by decide)

theorem rstrip_decomp (l : List Char) : ∃ a, l = rstrip l ++ a := by
  obtain ⟨a, ha⟩ := List.dropWhile_suffix (l := l.reverse) isSpaceB
  refine ⟨a.reverse, ?_⟩
  have : l.reverse.reverse = (a ++ l.reverse.dropWhile isSpaceB).reverse := by
    rw [ha]
  simpa [rstrip, List.reverse_append] using this

theorem hasUrl_rstrip {l : List Char} (h : hasUrl l = false) :
    hasUrl (rstrip l) = false := by
  obtain ⟨a, ha⟩ := rstrip_decomp l
  cases hu : hasUrl (rstrip l) with
  | false => rfl
  | true =>
    have : hasUrl l = true := by
      rw [ha]
      exact hasUrl_append_left _ a hu
    rw [this] at h
    exact absurd h (by decide)

theorem hasUrl_strip {l : List Char} (h : hasUrl l = false) :
    hasUrl (strip l) = false :=
  hasUrl_rstrip (hasUrl_lstrip h)

theorem startsPat_collapse :
    ∀ (n : Nat) (l : List Char), l.length ≤ n → ∀ pat, PatOk pat →
      startsPat pat l = false → startsPat pat (collapse l) = false := by
  intro n
  induction n with
  | zero =>
    intro l hl pat hp h
    have : l = [] := List.eq_nil_of_length_eq_zero (Nat.le_zero.mp hl)
    subst this
    simpa [collapse_nil] using h
  | succ n ih =>
    intro l hl pat hp h
    cases l with
    | nil => simpa [collapse_nil] using h
    | cons c cs =>
      simp only [List.length_cons, Nat.add_le_add_iff_right] at hl
      by_cases hc : isSpaceB c = true
      · rw [collapse_cons_space hc]
        exact startsPat_spaceHead hp (Or.inr rfl)
      · replace hc : isSpaceB c = false := by simpa using hc
        rw [collapse_cons_char hc]
        rcases hp with h0 | h0 | h0 | h0 <;> subst h0
        · simpa [startsPat] using h
        · simp only [startsPat] at h ⊢
          rcases Bool.and_eq_false_iff.mp h with h1 | h1
          · simp [h1]
          · rw [ih cs hl [] (Or.inl rfl) h1, Bool.and_false]
        · simp only [startsPat] at h ⊢
          rcases Bool.and_eq_false_iff.mp h with h1 | h1
          · simp [h1]
          · rw [ih cs hl ['p'] (by simp [PatOk]) h1, Bool.and_false]
        · simp only [startsPat] at h ⊢
          rcases Bool.and_eq_false_iff.mp h with h1 | h1
          · simp [h1]
          · rw [ih cs hl ['t', 'p'] (by simp [PatOk]) h1, Bool.and_false]

theorem hasUrl_collapse :
    ∀ (n : Nat) (l : List Char), l.length ≤ n → hasUrl l = false →
      hasUrl (collapse l) = false := by
  intro n
  induction n with
  | zero =>
    intro l hl _
    have : l = [] := List.eq_nil_of_length_eq_zero (Nat.le_zero.mp hl)
    subst this
    rfl
  | succ n ih =>
    intro l hl h
    cases l with
    | nil => rfl
    | cons c cs =>
      simp only [List.length_cons, Nat.add_le_add_iff_right] at hl
      have h' : (startsHttp (c :: cs) || hasUrl cs) = false := h
      rcases Bool.or_eq_false_iff.mp h' with ⟨h1, h2⟩
      by_cases hc : isSpaceB c = true
      · rw [collapse_cons_space hc]
        show (startsHttp (' ' :: collapse (lstrip cs)) || hasUrl (collapse (lstrip cs))) = false
        rw [ih (lstrip cs) (le_trans (dropWhile_length_le _ cs) hl) (hasUrl_lstrip h2),
          Bool.or_false, startsHttp_eq]
        simp
      · replace hc : isSpaceB c = false := by simpa using hc
        rw [collapse_cons_char hc]
        show (startsHttp (c :: collapse cs) || hasUrl (collapse cs)) = false
        rw [ih cs hl h2, Bool.or_false, startsHttp_eq]
        rw [startsHttp_eq] at h1
        rcases Bool.and_eq_false_iff.mp h1 with h3 | h3
        · simp [h3]
        · rw [startsPat_collapse cs.length cs le_rfl _ (by simp [PatOk]) h3,
            Bool.and_false]

theorem hasUrl_collapse_all {l : List Char} (h : hasUrl l = false) :
    hasUrl (collapse l) = false :=
  hasUrl_collapse l.length l le_rfl h

/-! ### Fixed points of strip and collapse -/

theorem spaceHead_dropWhile (l : List Char) :
    spaceHeadB (List.dropWhile isSpaceB l) = false := by
  induction l with
  | nil => rfl
  | cons c cs ih =>
    by_cases h : isSpaceB c = true
    · simpa [List.dropWhile_cons, h] using ih
    · replace h : isSpaceB c = false := by simpa using h
      simp [List.dropWhile_cons, h, spaceHeadB]

theorem spaceHead_lstrip (l : List Char) : spaceHeadB (lstrip l) = false :=
  spaceHead_dropWhile l

theorem lstrip_of_spaceHead {l : List Char} (h : spaceHeadB l = false) :
    lstrip l = l := by
  cases l with
  | nil => rfl
  | cons c cs =>
    have hc : isSpaceB c = false := h
    simp [lstrip, List.dropWhile_cons, hc]

theorem spaceHead_rstrip {l : List Char} (h : spaceHeadB l = false) :
    spaceHeadB (rstrip l) = false := by
  obtain ⟨a, ha⟩ := rstrip_decomp l
  cases hr : rstrip l with
  | nil => rfl
  | cons c cs =>
    rw [hr] at ha
    rw [ha] at h
    exact h

theorem lastSpace_cons (y : Char) {ys : List Char} (h : ys ≠ []) :
    lastSpaceB (y :: ys) = lastSpaceB ys := by
  cases ys with
  | nil => exact absurd rfl h
  | cons d ds => rfl

theorem spaceHead_append {x : List Char} (y : List Char) (h : x ≠ []) :
    spaceHeadB (x ++ y) = spaceHeadB x := by
  cases x with
  | nil => exact absurd rfl h
  | cons c cs => rfl

theorem lastSpace_eq_reverse (l : List Char) :
    lastSpaceB l = spaceHeadB l.reverse := by
  induction l with
  | nil => rfl
  | cons c cs ih =>
    cases cs with
    | nil => rfl
    | cons d ds =>
      rw [lastSpace_cons c (by simp), ih, List.reverse_cons c (d :: ds),
        spaceHead_append [c] (by simp)]

theorem rstrip_of_lastSpace {l : List Char} (h : lastSpaceB l = false) :
    rstrip l = l := by
  rw [lastSpace_eq_reverse] at h
  have : List.dropWhile isSpaceB l.reverse = l.reverse := lstrip_of_spaceHead h
  rw [rstrip, this, List.reverse_reverse]

theorem lastSpace_rstrip (l : List Char) : lastSpaceB (rstrip l) = false := by
  rw [lastSpace_eq_reverse, rstrip, List.reverse_reverse]
  exact spaceHead_dropWhile l.reverse

theorem lastSpace_lstrip {l : List Char} (h : lastSpaceB l = false) :
    lastSpaceB (lstrip l) = false := by
  induction l with
  | nil => rfl
  | cons c cs ih =>
    by_cases hc : isSpaceB c = true
    · cases cs with
      | nil => simp [lastSpaceB, hc] at h
      | cons d ds =>
        rw [lastSpace_cons c (by simp)] at h
        have : lstrip (c :: d :: ds) = lstrip (d :: ds) := by
          simp [lstrip, List.dropWhile_cons, hc]
        rw [this]
        exact ih h
    · replace hc : isSpaceB c = false := by simpa using hc
      rw [lstrip_of_spaceHead (show spaceHeadB (c :: cs) = false from hc)]
      exact h

theorem lstrip_ne_nil {l : List Char} (h : lastSpaceB l = false) (hne : l ≠ []) :
    lstrip l ≠ [] := by
  induction l with
  | nil => exact absurd rfl hne
  | cons c cs ih =>
    by_cases hc : isSpaceB c = true
    · cases cs with
      | nil => simp [lastSpaceB, hc] at h
      | cons d ds =>
        rw [lastSpace_cons c (by simp)] at h
        have : lstrip (c :: d :: ds) = lstrip (d :: ds) := by
          simp [lstrip, List.dropWhile_cons, hc]
        rw [this]
        exact ih h (by simp)
    · replace hc : isSpaceB c = false := by simpa using hc
      rw [lstrip_of_spaceHead (show spaceHeadB (c :: cs) = false from hc)]
      simp

theorem collapse_ne_nil {l : List Char} (h : l ≠ []) : collapse l ≠ [] := by
  cases l with
  | nil => exact absurd rfl h
  | cons c cs =>
    by_cases hc : isSpaceB c = true
    · rw [collapse_cons_space hc]; simp
    · rw [collapse_cons_char (by simpa using hc)]; simp

theorem spaceHead_collapse {l : List Char} (h : spaceHeadB l = false) :
    spaceHeadB (collapse l) = false := by
  cases l with
  | nil => rfl
  | cons c cs =>
    have hc : isSpaceB c = false := h
    rw [collapse_cons_char hc]
    exact hc

theorem lastSpace_collapse :
    ∀ (n : Nat) (l : List Char), l.length ≤ n → lastSpaceB l = false →
      lastSpaceB (collapse l) = false := by
  intro n
  induction n with
  | zero =>
    intro l hl _
    have : l = [] := List.eq_nil_of_length_eq_zero (Nat.le_zero.mp hl)
    subst this
    rfl
  | succ n ih =>
    intro l hl h
    cases l with
    | nil => rfl
    | cons c cs =>
      simp only [List.length_cons, Nat.add_le_add_iff_right] at hl
      cases cs with
      | nil =>
        have hc : isSpaceB c = false := h
        rw [collapse_cons_char hc, collapse_nil]
        exact h
      | cons d ds =>
        rw [lastSpace_cons c (by simp)] at h
        by_cases hc : isSpaceB c = true
        · rw [collapse_cons_space hc]
          have ht1 : lastSpaceB (lstrip (d :: ds)) = false := lastSpace_lstrip h
          have ht2 : lstrip (d :: ds) ≠ [] := lstrip_ne_nil h (by simp)
          rw [lastSpace_cons ' ' (collapse_ne_nil ht2)]
          exact ih _ (le_trans (dropWhile_length_le _ _) hl) ht1
        · replace hc : isSpaceB c = false := by simpa using hc
          rw [collapse_cons_char hc,
            lastSpace_cons c (collapse_ne_nil (by simp))]
          exact ih _ hl h

theorem collapse_collapse :
    ∀ (n : Nat) (l : List Char), l.length ≤ n → collapse (collapse l) = collapse l := by
  intro n
  induction n with
  | zero =>
    intro l hl
    have : l = [] := List.eq_nil_of_length_eq_zero (Nat.le_zero.mp hl)
    subst this
    rfl
  | succ n ih =>
    intro l hl
    cases l with
    | nil => rfl
    | cons c cs =>
      simp only [List.length_cons, Nat.add_le_add_iff_right] at hl
      by_cases hc : isSpaceB c = true
      · rw [collapse_cons_space hc, collapse_cons_space (by decide)]
        have h1 : spaceHeadB (collapse (lstrip cs)) = false :=
          spaceHead_collapse (spaceHead_lstrip cs)
        rw [lstrip_of_spaceHead h1]
        exact congrArg (' ' :: ·)
          (ih _ (le_trans (dropWhile_length_le _ cs) hl))
      · replace hc : isSpaceB c = false := by simpa using hc
        rw [collapse_cons_char hc, collapse_cons_char hc]
        exact congrArg (c :: ·) (ih cs hl)

/-- C6: normalize (clean_text) is idempotent: for every string x,
normalize(normalize(x)) == normalize(x). -/
theorem clean_text_idempotent (x : List Char) :
    clean_text (clean_text x) = clean_text x := by
  by_cases hx : x = []
  · subst hx; simp [clean_text]
  · have hy : clean_text x = collapse (strip (removeUrls x)) := by
      simp [clean_text, hx]
    rw [hy]
    by_cases h2 : collapse (strip (removeUrls x)) = []
    · rw [h2]; simp [clean_text]
    · have h3 : hasUrl (collapse (strip (removeUrls x))) = false :=
        hasUrl_collapse_all (hasUrl_strip (hasUrl_removeUrls_all x))
    -- the output of clean_text contains no URL, no leading and no trailing
    -- whitespace, and no uncollapsed whitespace run: each pass is a no-op
      have h4 : removeUrls (collapse (strip (removeUrls x))) =
          collapse (strip (removeUrls x)) := removeUrls_eq_self _ h3
      have h5 : spaceHeadB (collapse (strip (removeUrls x))) = false :=
        spaceHead_collapse (spaceHead_rstrip (spaceHead_lstrip (removeUrls x)))
      have h6 : lastSpaceB (collapse (strip (removeUrls x))) = false :=
        lastSpace_collapse _ _ le_rfl (lastSpace_rstrip (lstrip (removeUrls x)))
      have h7 : strip (collapse (strip (removeUrls x))) =
          collapse (strip (removeUrls x)) := by
        rw [strip, lstrip_of_spaceHead h5, rstrip_of_lastSpace h6]
      have h8 : collapse (collapse (strip (removeUrls x))) =
          collapse (strip (removeUrls x)) :=
        collapse_collapse _ _ le_rfl
      rw [clean_text, if_neg h2, h4, h7, h8]

/-! ### classifier.py: AIClassifier.predict

The two inference pipelines are black boxes.  A call that raises is modelled
as `none`; a successful zero-shot call returns ranked `labels`/`scores` lists,
a successful sentiment call returns a (possibly empty) list of label/score
records, of which the code takes element `[0]`. -/

/-- Output shape of the zero-shot classification pipeline. -/
structure ZSResult where
  labels : List String
  scores : List ℚ
deriving DecidableEq

/-- One element of the sentiment-analysis pipeline's output list. -/
structure SentResult where
  label : String
  score : ℚ
deriving DecidableEq

/-- The dictionary returned by `AIClassifier.predict`: the sentiment keys are
absent (`none`) in the Unknown and Error sentinel results. -/
structure Prediction where
  label : String
  score : ℚ
  sentiment : Option String
  sentiment_score : Option ℚ
deriving DecidableEq

/-- The sentinel returned by the `except` handler of classifier.py line 60. -/
def errorPrediction : Prediction :=
  { label := "Error", score := 0, sentiment := none, sentiment_score := none }

/-- classifier.py line 50: `label_map = {"human": "Human", "ai": "AI"}` with
`label_map.get(top_label, top_label)` — unrecognized labels pass through. -/
def label_map (l : String) : String :=
  if l = "human" then "Human" else if l = "ai" then "AI" else l

/-- classifier.py lines 26-60: `AIClassifier.predict`.  `zs` is the result of
`self.classifier(text, self.candidate_labels)` (`none` when the call raises),
`sent` the result of `self.sentiment_analyzer(text)` (`none` when it raises).
Indexing an empty `labels`/`scores`/sentiment list raises `IndexError`; every
exception inside the `try` is caught and degrades to `errorPrediction`. -/
def predict (zs : Option ZSResult) (sent : Option (List SentResult))
    (text : List Char) : Prediction :=
  if clean_text text = [] then
    { label := "Unknown", score := 0, sentiment := none, sentiment_score := none }
  else
    match zs with
    | none => errorPrediction
    | some result =>
      match result.labels.head? with
      | none => errorPrediction
      | some top_label =>
        match result.scores.head? with
        | none => errorPrediction
        | some top_score =>
          match sent with
          | none => errorPrediction
          | some sent_results =>
            match sent_results.head? with
            | none => errorPrediction
            | some sent_result =>
              { label := label_map top_label, score := top_score,
                sentiment := some sent_result.label,
                sentiment_score := some sent_result.score }

/-- The top-ranked label of the zero-shot call, when the call succeeded. -/
def topLabel (zs : Option ZSResult) : Option String :=
  zs.bind fun r => r.labels.head?

/-- The top score of the zero-shot call, when the call succeeded. -/
def topScore (zs : Option ZSResult) : Option ℚ :=
  zs.bind fun r => r.scores.head?

/-- C3: for every input text and every possible output of the two black-box
inference models (the zero-shot pipeline ranks the fixed candidate set
`{human, ai}`, so its top label is `human` or `ai` when present, and its
scores are probabilities in [0,1]), predict returns a label in
{Human, AI, Unknown, Error}, and a score in [0,1] whenever the label is
neither Unknown nor Error. -/
theorem predict_label_score_range (zs : Option ZSResult)
    (sent : Option (List SentResult)) (text : List Char)
    (hl : topLabel zs = none ∨ topLabel zs = some "human" ∨ topLabel zs = some "ai")
    (hs : 0 ≤ (topScore zs).getD 0 ∧ (topScore zs).getD 0 ≤ 1) :
    ((predict zs sent text).label = "Human" ∨ (predict zs sent text).label = "AI" ∨
     (predict zs sent text).label = "Unknown" ∨ (predict zs sent text).label = "Error") ∧
    ((predict zs sent text).label ≠ "Unknown" → (predict zs sent text).label ≠ "Error" →
      0 ≤ (predict zs sent text).score ∧ (predict zs sent text).score ≤ 1) := by
  by_cases ht : clean_text text = []
  · have hp : (predict zs sent text).label = "Unknown" := by
      simp [predict, ht]
    exact ⟨Or.inr (Or.inr (Or.inl hp)), fun h _ => absurd hp h⟩
  · cases zs with
    | none =>
      have hp : (predict none sent text).label = "Error" := by
        simp [predict, ht, errorPrediction]
      exact ⟨Or.inr (Or.inr (Or.inr hp)), fun _ h => absurd hp h⟩
    | some r =>
      cases hlab : r.labels.head? with
      | none =>
        have hp : (predict (some r) sent text).label = "Error" := by
          simp [predict, ht, hlab, errorPrediction]
        exact ⟨Or.inr (Or.inr (Or.inr hp)), fun _ h => absurd hp h⟩
      | some top_label =>
        cases hsc : r.scores.head? with
        | none =>
          have hp : (predict (some r) sent text).label = "Error" := by
            simp [predict, ht, hlab, hsc, errorPrediction]
          exact ⟨Or.inr (Or.inr (Or.inr hp)), fun _ h => absurd hp h⟩
        | some top_score =>
          cases sent with
          | none =>
            have hp : (predict (some r) none text).label = "Error" := by
              simp [predict, ht, hlab, hsc, errorPrediction]
            exact ⟨Or.inr (Or.inr (Or.inr hp)), fun _ h => absurd hp h⟩
          | some srs =>
            cases hsr : srs.head? with
            | none =>
              have hp : (predict (some r) (some srs) text).label = "Error" := by
                simp [predict, ht, hlab, hsc, hsr, errorPrediction]
              exact ⟨Or.inr (Or.inr (Or.inr hp)), fun _ h => absurd hp h⟩
            | some sr =>
              have hp : (predict (some r) (some srs) text).label = label_map top_label ∧
                  (predict (some r) (some srs) text).score = top_score := by
                constructor <;> simp [predict, ht, hlab, hsc, hsr]
              have hsc' : topScore (some r) = some top_score := by
                simp [topScore, hsc]
              rw [hsc', Option.getD_some] at hs
              have hlab' : topLabel (some r) = some top_label := by
                simp [topLabel, hlab]
              constructor
              · rw [hp.1]
                rcases hl with h | h | h
                · rw [hlab'] at h; exact absurd h (by simp)
                · rw [hlab'] at h
                  have he : top_label = "human" := by injection h
                  subst he
                  exact Or.inl (by simp [label_map])
                · rw [hlab'] at h
                  have he : top_label = "ai" := by injection h
                  subst he
                  exact Or.inr (Or.inl (by simp [label_map]))
              · intro _ _
                rw [hp.2]
                exact hs

/-- Witness for predict_label_score_range: a concrete successful model output. -/
theorem predict_label_score_range_witness :
    (topLabel (some ⟨["human", "ai"], [(1 : ℚ), 0]⟩) = none ∨
     topLabel (some ⟨["human", "ai"], [(1 : ℚ), 0]⟩) = some "human" ∨
     topLabel (some ⟨["human", "ai"], [(1 : ℚ), 0]⟩) = some "ai") ∧
    (0 ≤ (topScore (some ⟨["human", "ai"], [(1 : ℚ), 0]⟩)).getD 0 ∧
     (topScore (some ⟨["human", "ai"], [(1 : ℚ), 0]⟩)).getD 0 ≤ 1) ∧
    (((predict (some ⟨["human", "ai"], [(1 : ℚ), 0]⟩)
        (some [⟨"POSITIVE", 1⟩]) ['h', 'i']).label = "Human" ∨
      (predict (some ⟨["human", "ai"], [(1 : ℚ), 0]⟩)
        (some [⟨"POSITIVE", 1⟩]) ['h', 'i']).label = "AI" ∨
      (predict (some ⟨["human", "ai"], [(1 : ℚ), 0]⟩)
        (some [⟨"POSITIVE", 1⟩]) ['h', 'i']).label = "Unknown" ∨
      (predict (some ⟨["human", "ai"], [(1 : ℚ), 0]⟩)
        (some [⟨"POSITIVE", 1⟩]) ['h', 'i']).label = "Error") ∧
     ((predict (some ⟨["human", "ai"], [(1 : ℚ), 0]⟩)
        (some [⟨"POSITIVE", 1⟩]) ['h', 'i']).label ≠ "Unknown" →
      (predict (some ⟨["human", "ai"], [(1 : ℚ), 0]⟩)
        (some [⟨"POSITIVE", 1⟩]) ['h', 'i']).label ≠ "Error" →
      0 ≤ (predict (some ⟨["human", "ai"], [(1 : ℚ), 0]⟩)
        (some [⟨"POSITIVE", 1⟩]) ['h', 'i']).score ∧
      (predict (some ⟨["human", "ai"], [(1 : ℚ), 0]⟩)
        (some [⟨"POSITIVE", 1⟩]) ['h', 'i']).score ≤ 1)) :=
  ⟨by simp [topLabel], ⟨by simp [topScore], by simp [topScore]⟩,
    predict_label_score_range _ _ _ (by simp [topLabel])
      ⟨by simp [topScore], by simp [topScore]⟩⟩

/-- C4: for every text whose normalized form is non-empty, if either inference
call raises (modelled as `none`), predict returns exactly the sentinel
Error prediction, with no sentiment fields (and, being a total function of the
modelled failures, does not itself raise). -/
theorem predict_error_sentinel (zs : Option ZSResult)
    (sent : Option (List SentResult)) (text : List Char)
    (ht : clean_text text ≠ [])
    (hfail : zs = none ∨ sent = none) :
    predict zs sent text =
      { label := "Error", score := 0, sentiment := none, sentiment_score := none } := by
  rcases hfail with h | h
  · subst h
    simp [predict, ht, errorPrediction]
  · subst h
    cases zs with
    | none => simp [predict, ht, errorPrediction]
    | some r =>
      cases hlab : r.labels.head? with
      | none => simp [predict, ht, hlab, errorPrediction]
      | some tl =>
        cases hsc : r.scores.head? with
        | none => simp [predict, ht, hlab, hsc, errorPrediction]
        | some ts => simp [predict, ht, hlab, hsc, errorPrediction]

/-- Witness for predict_error_sentinel: both inference calls raising on a
non-empty text. -/
theorem predict_error_sentinel_witness :
    clean_text ['h', 'i'] ≠ [] ∧
    ((none : Option ZSResult) = none ∨ (none : Option (List SentResult)) = none) ∧
    predict none none ['h', 'i'] =
      { label := "Error", score := 0, sentiment := none, sentiment_score := none } :=
  ⟨by decide, Or.inl rfl, predict_error_sentinel none none ['h', 'i'] (by decide) (Or.inl rfl)⟩

/-! ### main.py: the streaming loop

The loop (main.py lines 192-294) pulls feed items, classifies each body,
updates the session counters, persists the classified comment, and pushes a
display entry to the front of the bounded window
(`deque(maxlen=100).appendleft`).  Python dictionary accesses that can raise
`KeyError` (`prediction['sentiment']`, `prediction['sentiment_score']`) are
modelled through the `Option` sentiment fields of `Prediction`; an exception
escapes the item processing into the outer `except`, which records the partial
session-state mutations already performed and sets `streaming = False`. -/

/-- A comment record yielded by the feed (reddit_stream.py lines 44-53). -/
structure CommentRecord where
  id : String
  author : String
  body : List Char
  created_utc : ℚ
  permalink : String
  subreddit : String
deriving DecidableEq

/-- An item of the feed: a comment record, or an error record
`{error: message}` (reddit_stream.py lines 59-64). -/
inductive FeedItem where
  | record (c : CommentRecord)
  | errorRec (msg : String)

/-- The display summary pushed onto `st.session_state.comments_data`
(main.py lines 225-232; the wall-clock `time` field is omitted). -/
structure WindowEntry where
  author : String
  body : List Char
  label : String
  score : ℚ
  sentiment : String
deriving DecidableEq

/-- The session state of main.py lines 142-151, together with the trace of
persistence calls (`save_comment`, main.py line 223) made so far. -/
structure SessionState where
  streaming : Bool
  total_processed : Nat
  total_ai : Nat
  total_negative : Nat
  window : List WindowEntry
  persisted : List CommentRecord
deriving DecidableEq

/-- `deque(maxlen=100)` capacity of `comments_data` (main.py line 145). -/
def windowCap : Nat := 100

/-- `deque.appendleft` on a deque with `maxlen`: push at the front, evicting
the oldest (rightmost) entry when the capacity is exceeded. -/
def appendleftCapped (e : WindowEntry) (w : List WindowEntry) : List WindowEntry :=
  (e :: w).take windowCap

/-- The session state at the start of a streaming session (main.py 142-151). -/
def initState : SessionState :=
  { streaming := true, total_processed := 0, total_ai := 0, total_negative := 0,
    window := [], persisted := [] }

/-- main.py lines 200-233: process one comment while Streaming.  On a
`KeyError` (`none` sentiment field of the prediction) the partially-updated
state is returned in the `error` case, mirroring the in-place mutations of
`st.session_state` performed before the raise. -/
def processComment (classify : List Char → Prediction) (st : SessionState)
    (c : CommentRecord) : Except SessionState SessionState :=
  let pred := classify c.body
  let st1 := { st with total_processed := st.total_processed + 1 }
  let st2 := if pred.label = "AI" then { st1 with total_ai := st1.total_ai + 1 } else st1
  match pred.sentiment with
  | none => Except.error st2   -- KeyError at main.py line 209
  | some senti =>
    let st3 := if senti = "NEGATIVE" then
        { st2 with total_negative := st2.total_negative + 1 } else st2
    match pred.sentiment_score with
    | none => Except.error st3   -- KeyError at main.py line 220 (db_data)
    | some _ =>
      let st4 := { st3 with persisted := st3.persisted ++ [c] }  -- save_comment
      let entry : WindowEntry :=
        { author := c.author, body := c.body, label := pred.label,
          score := pred.score, sentiment := senti }
      Except.ok { st4 with window := appendleftCapped entry st4.window }

/-- main.py lines 191-294: the stream loop.  Checks the stop flag at the top
of each iteration, breaks on an ErrorRecord, and on an exception in the item
processing the outer `except` sets `streaming` to `False` and the loop ends. -/
def streamLoop (classify : List Char → Prediction) :
    SessionState → List FeedItem → SessionState
  | st, [] => st
  | st, item :: rest =>
    if st.streaming then
      match item with
      | FeedItem.errorRec _ => st
      | FeedItem.record c =>
        match processComment classify st c with
        | Except.ok st1 => streamLoop classify st1 rest
        | Except.error st1 => { st1 with streaming := false }
    else st

/-- The window entry produced for a comment whose prediction carries a
sentiment field. -/
def entryOf (classify : List Char → Prediction) (c : CommentRecord) : WindowEntry :=
  { author := c.author, body := c.body, label := (classify c.body).label,
    score := (classify c.body).score,
    sentiment := ((classify c.body).sentiment).getD "" }

theorem take_append_take {α : Type} (n : Nat) (a b : List α) :
    (a ++ b.take n).take n = (a ++ b).take n := by
  rw [List.take_append_eq_append_take, List.take_append_eq_append_take,
    List.take_take]
  have : min (n - a.length) n = n - a.length :=
    Nat.min_eq_left (Nat.sub_le n a.length)
  rw [this]

theorem processComment_eq (classify : List Char → Prediction)
    (st : SessionState) (c : CommentRecord) {s : String} {q : ℚ}
    (hs : (classify c.body).sentiment = some s)
    (hq : (classify c.body).sentiment_score = some q) :
    processComment classify st c = Except.ok
      { streaming := st.streaming
        total_processed := st.total_processed + 1
        total_ai := st.total_ai + (if (classify c.body).label = "AI" then 1 else 0)
        total_negative := st.total_negative + (if s = "NEGATIVE" then 1 else 0)
        window := (entryOf classify c :: st.window).take windowCap
        persisted := st.persisted ++ [c] } := by
  by_cases hai : (classify c.body).label = "AI" <;>
    by_cases hneg : s = "NEGATIVE" <;>
      simp [processComment, hs, hq, hai, hneg, appendleftCapped, entryOf]

/-- Invariant of the stream loop over comment-only input whose predictions all
carry sentiment fields, for an arbitrary starting state. -/
theorem streamLoop_ok (classify : List Char → Prediction) :
    ∀ (cs : List CommentRecord) (st : SessionState),
      st.streaming = true → st.window.length ≤ windowCap →
      (∀ c ∈ cs, ∃ s q, (classify c.body).sentiment = some s ∧
        (classify c.body).sentiment_score = some q) →
      streamLoop classify st (cs.map FeedItem.record) =
        { streaming := true
          total_processed := st.total_processed + cs.length
          total_ai := st.total_ai +
            cs.countP (fun c => (classify c.body).label == "AI")
          total_negative := st.total_negative +
            cs.countP (fun c => (classify c.body).sentiment == some "NEGATIVE")
          window := ((cs.map (entryOf classify)).reverse ++ st.window).take windowCap
          persisted := st.persisted ++ cs } := by
  intro cs
  induction cs with
  | nil =>
    intro st hstr hlen _
    simp [streamLoop, List.take_of_length_le hlen, ← hstr]
  | cons c cs ih =>
    intro st hstr hlen hall
    obtain ⟨s, q, hs, hq⟩ := hall c (by simp)
    have hstep := processComment_eq classify st c hs hq
    have hwin :
        ((cs.map (entryOf classify)).reverse ++
            (entryOf classify c :: st.window).take windowCap).take windowCap =
        (((c :: cs).map (entryOf classify)).reverse ++ st.window).take windowCap := by
      rw [take_append_take, List.map_cons, List.reverse_cons, List.append_assoc]
      rfl
    simp only [List.map_cons, streamLoop, hstr, if_true, hstep]
    rw [ih _ (by simp [hstr]) (by simp [List.length_take])
        (fun d hd => hall d (by simp [hd]))]
    simp only [SessionState.mk.injEq, List.length_cons, List.countP_cons]
    refine ⟨trivial, by omega, ?_, ?_, ?_, by simp⟩
    · by_cases h : (classify c.body).label = "AI" <;> simp [h] <;> omega
    · rw [hs]
      by_cases h : s = "NEGATIVE" <;> simp [h] <;> omega
    · exact hwin

/-- C5: after the streaming loop has processed N items, none an ErrorRecord
and none of whose processing failed (every prediction carries its sentiment
fields), the aggregate state satisfies total_processed = N, window length
= min N 100, and the window holds the processed items newest-first (pushed at
the front, oldest evicted beyond the fixed capacity 100). -/
theorem streamLoop_invariant (classify : List Char → Prediction)
    (cs : List CommentRecord)
    (hall : ∀ c ∈ cs, ((classify c.body).sentiment).isSome = true ∧
      ((classify c.body).sentiment_score).isSome = true) :
    (streamLoop classify initState (cs.map FeedItem.record)).total_processed
        = cs.length ∧
    (streamLoop classify initState (cs.map FeedItem.record)).window.length
        = min cs.length windowCap ∧
    (streamLoop classify initState (cs.map FeedItem.record)).window
        = ((cs.map (entryOf classify)).reverse).take windowCap := by
  have hall' : ∀ c ∈ cs, ∃ s q, (classify c.body).sentiment = some s ∧
      (classify c.body).sentiment_score = some q := by
    intro c hc
    obtain ⟨h1, h2⟩ := hall c hc
    obtain ⟨s, hs⟩ := Option.isSome_iff_exists.mp h1
    obtain ⟨q, hq⟩ := Option.isSome_iff_exists.mp h2
    exact ⟨s, q, hs, hq⟩
  rw [streamLoop_ok classify cs initState rfl (by simp [initState, windowCap]) hall']
  refine ⟨by simp [initState], ?_, by simp [initState]⟩
  simp [initState, List.length_take, Nat.min_comm]

/-- A classifier oracle whose predictions always carry sentiment fields. -/
def okClassify : List Char → Prediction :=
  fun _ => { label := "Human", score := 1, sentiment := some "POSITIVE",
             sentiment_score := some 1 }

/-- Three concrete feed comments. -/
def cRec1 : CommentRecord :=
  { id := "c1", author := "alice", body := ['h', 'i'], created_utc := 0,
    permalink := "p1", subreddit := "test" }

def cRec2 : CommentRecord :=
  { id := "c2", author := "bob", body := ['y', 'o'], created_utc := 1,
    permalink := "p2", subreddit := "test" }

def cRec3 : CommentRecord :=
  { id := "c3", author := "carol", body := ['h', 'm'], created_utc := 2,
    permalink := "p3", subreddit := "test" }

/-- Witness for streamLoop_invariant: three successfully classified items. -/
theorem streamLoop_invariant_witness :
    (∀ c ∈ [cRec1, cRec2, cRec3], ((okClassify c.body).sentiment).isSome = true ∧
      ((okClassify c.body).sentiment_score).isSome = true) ∧
    ((streamLoop okClassify initState
        ([cRec1, cRec2, cRec3].map FeedItem.record)).total_processed = 3 ∧
     (streamLoop okClassify initState
        ([cRec1, cRec2, cRec3].map FeedItem.record)).window.length
          = min 3 windowCap ∧
     (streamLoop okClassify initState
        ([cRec1, cRec2, cRec3].map FeedItem.record)).window
          = (([cRec1, cRec2, cRec3].map (entryOf okClassify)).reverse).take windowCap) := by
  have h : ∀ c ∈ [cRec1, cRec2, cRec3], ((okClassify c.body).sentiment).isSome = true ∧
      ((okClassify c.body).sentiment_score).isSome = true := by decide
  have h3 : ([cRec1, cRec2, cRec3] : List CommentRecord).length = 3 := rfl
  exact ⟨h, h3 ▸ streamLoop_invariant okClassify [cRec1, cRec2, cRec3] h⟩

/-- A classifier oracle that always fails: its two inference calls raise, so
predict degrades to the sentinel Error prediction (classifier.py line 60). -/
def errClassify : List Char → Prediction :=
  fun body => predict none none body

/-- C1 (code bug witness): with two comments in the feed and a classifier that
returns the sentinel Error prediction for the first body, the loop increments
total_processed for the first item but then raises KeyError at
main.py line 209 (`prediction['sentiment']` on a dict without that key); the
outer handler sets streaming to False.  Nothing is persisted, no window entry
is pushed, and the second item is never pulled — the pipeline does not
continue to the next item as the specification requires. -/
theorem streamLoop_error_prediction_crashes :
    errClassify cRec1.body =
      { label := "Error", score := 0, sentiment := none, sentiment_score := none } ∧
    streamLoop errClassify initState
        [FeedItem.record cRec1, FeedItem.record cRec2] =
      { streaming := false, total_processed := 1, total_ai := 0,
        total_negative := 0, window := [], persisted := [] } := by
  constructor
  · decide
  · decide

/-- C8: if the feed yields an ErrorRecord while streaming, the loop breaks
immediately: the session state is returned unchanged (total_processed keeps
its pre-call value, no persistence call is recorded) and the remaining feed
items are never pulled. -/
theorem streamLoop_stops_on_error_record (classify : List Char → Prediction)
    (st : SessionState) (msg : String) (rest : List FeedItem)
    (h : st.streaming = true) :
    streamLoop classify st (FeedItem.errorRec msg :: rest) = st := by
  simp [streamLoop, h]

/-- Witness for streamLoop_stops_on_error_record: the rate-limited first item
of a fresh session. -/
theorem streamLoop_stops_on_error_record_witness :
    initState.streaming = true ∧
    streamLoop okClassify initState
      [FeedItem.errorRec "rate limited", FeedItem.record cRec1] = initState :=
  ⟨rfl, streamLoop_stops_on_error_record okClassify initState "rate limited"
    [FeedItem.record cRec1] rfl⟩

/-! ### database.py: fix_oid and the Store operations

BSON values are modelled by `BValue`; documents, filters and patches are
association lists.  An ObjectId is a 96-bit number; its external string form
is 24 hex characters, and the `ObjectId(s)` constructor accepts exactly a
24-character hex string (raising `InvalidId` otherwise, modelled by `none`). -/

inductive BValue where
  | str (s : String)
  | oid (n : Nat)
  | num (q : ℚ)
  | dict (fields : List (String × BValue))

mutual
/-- Structural equality of BSON values, the backend's equality match. -/
def bvalEq : BValue → BValue → Bool
  | BValue.str a, BValue.str b => a == b
  | BValue.oid a, BValue.oid b => a == b
  | BValue.num a, BValue.num b => a == b
  | BValue.dict a, BValue.dict b => bdictEq a b
  | _, _ => false
def bdictEq : List (String × BValue) → List (String × BValue) → Bool
  | [], [] => true
  | (k1, v1) :: r1, (k2, v2) :: r2 => k1 == k2 && bvalEq v1 v2 && bdictEq r1 r2
  | _, _ => false
end

/-- The hex digit character for `n < 16`, lowercase (as `str(ObjectId)`). -/
def hexChar (n : Nat) : Char :=
  if n < 10 then Char.ofNat (48 + n) else Char.ofNat (87 + n)

/-- The value of a hex digit character, accepting both cases. -/
def hexVal (c : Char) : Option Nat :=
  if '0' ≤ c ∧ c ≤ '9' then some (c.toNat - 48)
  else if 'a' ≤ c ∧ c ≤ 'f' then some (c.toNat - 87)
  else if 'A' ≤ c ∧ c ≤ 'F' then some (c.toNat - 55)
  else none

/-- Big-endian fixed-width hex rendering: `k` digits of `n % 16^k`. -/
def toHexAux : Nat → Nat → List Char
  | 0, _ => []
  | k + 1, n => toHexAux k (n / 16) ++ [hexChar (n % 16)]

/-- `str(ObjectId)`: the 24-character lowercase hex form of the identifier. -/
def oidToString (n : Nat) : String :=
  String.mk (toHexAux 24 n)

def parseHexAux : List Char → Nat → Option Nat
  | [], acc => some acc
  | c :: cs, acc =>
    match hexVal c with
    | some d => parseHexAux cs (acc * 16 + d)
    | none => none

/-- `ObjectId(s)` for a string argument: succeeds exactly on 24 hex
characters. -/
def parseOid (s : String) : Option Nat :=
  if s.data.length = 24 then parseHexAux s.data 0 else none

theorem hexVal_hexChar : ∀ m : Nat, m < 16 → hexVal (hexChar m) = some m := by
  decide

theorem length_toHexAux : ∀ (k n : Nat), (toHexAux k n).length = k := by
  intro k
  induction k with
  | zero => intro n; rfl
  | succ k ih => intro n; simp [toHexAux, ih]

theorem parseHexAux_append (a b : List Char) :
    ∀ acc, parseHexAux (a ++ b) acc =
      match parseHexAux a acc with
      | some acc2 => parseHexAux b acc2
      | none => none := by
  induction a with
  | nil => intro acc; rfl
  | cons c cs ih =>
    intro acc
    simp only [List.cons_append, parseHexAux]
    cases hexVal c with
    | none => rfl
    | some d => exact ih _

theorem parse_toHexAux :
    ∀ (k n acc : Nat), parseHexAux (toHexAux k n) acc = some (acc * 16 ^ k + n % 16 ^ k) := by
  intro k
  induction k with
  | zero => intro n acc; simp [toHexAux, parseHexAux, Nat.mod_one]
  | succ k ih =>
    intro n acc
    have hP : 0 < (16 : Nat) ^ k := pow_pos (by norm_num) k
    have hB : n / 16 % 16 ^ k < 16 ^ k := Nat.mod_lt _ hP
    have hr : n % 16 < 16 := Nat.mod_lt _ (by norm_num)
    have h1 : 16 * (n / 16) + n % 16 = n := Nat.div_add_mod n 16
    have h2 : 16 ^ k * (n / 16 / 16 ^ k) + n / 16 % 16 ^ k = n / 16 :=
      Nat.div_add_mod _ _
    have hpow : (16 : Nat) ^ (k + 1) = 16 ^ k * 16 := pow_succ 16 k
    have hsplit : n = 16 ^ (k + 1) * (n / 16 / 16 ^ k) +
        ((n / 16 % 16 ^ k) * 16 + n % 16) := by
      calc n = 16 * (n / 16) + n % 16 := h1.symm
        _ = 16 * (16 ^ k * (n / 16 / 16 ^ k) + n / 16 % 16 ^ k) + n % 16 := by
            rw [h2]
        _ = 16 ^ (k + 1) * (n / 16 / 16 ^ k) +
            ((n / 16 % 16 ^ k) * 16 + n % 16) := by
            rw [hpow]; ring
    have key : n % 16 ^ (k + 1) = (n / 16 % 16 ^ k) * 16 + n % 16 := by
      conv_lhs => rw [hsplit]
      rw [Nat.mul_add_mod]
      exact Nat.mod_eq_of_lt (by omega)
    rw [toHexAux, parseHexAux_append, ih (n / 16) acc]
    simp only [parseHexAux, hexVal_hexChar (n % 16) hr]
    rw [key]
    exact congrArg some (by ring)

/-- Round trip of a backend-generated identifier through its string form. -/
theorem parseOid_oidToString (n : Nat) (hn : n < 16 ^ 24) :
    parseOid (oidToString n) = some n := by
  have hd : (oidToString n).data = toHexAux 24 n := rfl
  rw [parseOid, hd, length_toHexAux, if_pos rfl, parse_toHexAux]
  rw [Nat.zero_mul, Nat.zero_add, Nat.mod_eq_of_lt hn]

/-- database.py lines 20-23: `ObjectId(v)` under `try`, keeping the string on
failure. -/
def oidConvert (s : String) : BValue :=
  match parseOid s with
  | some n => BValue.oid n
  | none => BValue.str s

/-- database.py lines 10-28: `fix_oid`.  Recursively converts the string
values of keys literally named `_id` to ObjectId; the bare `except` keeps the
string when the conversion fails, so the function never raises; sub-dicts are
processed recursively and all other entries are kept unchanged. -/
def fix_oid : List (String × BValue) → List (String × BValue)
  | [] => []
  | (k, v) :: rest =>
    (if k = "_id" then
      match v with
      | BValue.str s => (k, oidConvert s)
      | BValue.dict g => (k, BValue.dict (fix_oid g))
      | _ => (k, v)
    else
      match v with
      | BValue.dict g => (k, BValue.dict (fix_oid g))
      | _ => (k, v)) :: fix_oid rest

/-- Is the value a sub-mapping? -/
def isDict : BValue → Bool
  | BValue.dict _ => true
  | _ => false

/-- Python `dict` lookup on an association list (first occurrence wins). -/
def lookupB : List (String × BValue) → String → Option BValue
  | [], _ => none
  | (k, v) :: rest, key => if k = key then some v else lookupB rest key

/-- Modelled backend matching: a document matches a filter iff every key of
the filter is present in the document with an equal value. -/
def matchesFilter (filt doc : List (String × BValue)) : Bool :=
  filt.all fun kv =>
    match lookupB doc kv.1 with
    | some w => bvalEq kv.2 w
    | none => false

/-- Modelled backend `find`: the documents of the collection matching the
filter. -/
def mongoFind (coll : List (List (String × BValue)))
    (q : List (String × BValue)) : List (List (String × BValue)) :=
  coll.filter fun d => matchesFilter q d

/-- Python `str()` of a document value, as applied to `_id` fields of query
results (database.py line 101); in practice the value is an ObjectId. -/
def bvalToString : BValue → String
  | BValue.oid n => oidToString n
  | BValue.str s => s
  | BValue.num q => toString q
  | BValue.dict _ => ""

/-- database.py lines 99-101: convert the `_id` field of each result back to
a plain string. -/
def stringify_id (r : List (String × BValue)) : List (String × BValue) :=
  r.map fun kv =>
    if kv.1 = "_id" then (kv.1, BValue.str (bvalToString kv.2)) else kv

/-- database.py lines 81-105: `run_query`.  NOTE: as committed, lines 89-90
contain a duplicated `try:` which is a Python IndentationError — the module
cannot be imported, so this definition models the evidently intended body
(the duplicate line removed): no db handle yields `[]`; otherwise the filter
is identifier-fixed and passed to the backend (`find`, an oracle covering
find/sort/limit); a backend exception is caught and returned as the
single-element list `[{error: message}]`; on success `_id` fields of results
are converted back to strings. -/
def run_query (db : Option Unit)
    (find : List (String × BValue) → Nat → Except String (List (List (String × BValue))))
    (query : List (String × BValue)) (lim : Nat) : List (List (String × BValue)) :=
  match db with
  | none => []
  | some _ =>
    match find (fix_oid query) lim with
    | Except.error e => [[("error", BValue.str e)]]
    | Except.ok results => results.map stringify_id

/-- database.py lines 126-149: `update_document` computes the identifier-fixed
filter and the update operation (`{$set: patch}` unless `is_raw_update`), and
passes the pair to the backend `update_one`; the model returns that pair. -/
def update_document (filter_query : List (String × BValue))
    (update_data : List (String × BValue)) (is_raw_update : Bool) :
    List (String × BValue) × List (String × BValue) :=
  (fix_oid filter_query,
    if is_raw_update then update_data else [("$set", BValue.dict update_data)])

/-- database.py lines 151-170: `delete_document` passes the identifier-fixed
filter to the backend `delete_one`; the model returns that filter. -/
def delete_document (filter_query : List (String × BValue)) :
    List (String × BValue) :=
  fix_oid filter_query

/-- Modelled backend semantics of the `$set` update operator: every field
named in the patch is overwritten with its patch value, every other field of
the document is unchanged, and patch fields absent from the document are
added. -/
def applySet (doc patch : List (String × BValue)) : List (String × BValue) :=
  (doc.map fun kv =>
    match lookupB patch kv.1 with
    | some v => (kv.1, v)
    | none => kv) ++
  patch.filter fun kv => (lookupB doc kv.1).isNone

/-- Modelled backend interpretation of the update expressions this system
issues: a lone `$set` document applies `applySet`; other raw operator
expressions are outside the modelled scope. -/
def applyUpdateOp (op : List (String × BValue))
    (doc : List (String × BValue)) : Option (List (String × BValue)) :=
  match op with
  | [("$set", BValue.dict p)] => some (applySet doc p)
  | _ => none

theorem lookupB_append (a b : List (String × BValue)) (k : String) :
    lookupB (a ++ b) k =
      match lookupB a k with
      | some v => some v
      | none => lookupB b k := by
  induction a with
  | nil => rfl
  | cons kv rest ih =>
    obtain ⟨k1, v1⟩ := kv
    by_cases hk : k1 = k
    · simp [lookupB, hk]
    · simp only [List.cons_append, lookupB, hk, if_neg]
      exact ih

theorem lookupB_map_set (doc patch : List (String × BValue)) (k : String) :
    lookupB (doc.map fun kv =>
        match lookupB patch kv.1 with
        | some v => (kv.1, v)
        | none => kv) k =
      match lookupB doc k with
      | some w => some ((lookupB patch k).getD w)
      | none => none := by
  induction doc with
  | nil => rfl
  | cons kv rest ih =>
    obtain ⟨k1, v1⟩ := kv
    by_cases hk : k1 = k
    · subst hk
      cases hp : lookupB patch k1 <;> simp [lookupB, hp]
    · cases hp : lookupB patch k1 <;>
        simpa [lookupB, hp, hk] using ih

theorem lookupB_filter_key (p : String → Bool) (l : List (String × BValue))
    (k : String) :
    lookupB (l.filter fun kv => p kv.1) k =
      if p k then lookupB l k else none := by
  induction l with
  | nil => simp [lookupB]
  | cons kv rest ih =>
    obtain ⟨k1, v1⟩ := kv
    by_cases hp : p k1
    · by_cases hk : k1 = k
      · subst hk
        simp [List.filter, hp, lookupB]
      · simpa [List.filter, hp, lookupB, hk] using ih
    · by_cases hk : k1 = k
      · subst hk
        replace hp : p k1 = false := by simpa using hp
        simp [List.filter, hp, lookupB, ih]
      · replace hp : p k1 = false := by simpa using hp
        simpa [List.filter, hp, lookupB, hk] using ih

/-- Field-level frame property of the modelled `$set`: a key named in the
patch gets the patch value, every other key keeps the document's value. -/
theorem lookupB_applySet (doc patch : List (String × BValue)) (k : String) :
    lookupB (applySet doc patch) k =
      match lookupB patch k with
      | some v => some v
      | none => lookupB doc k := by
  rw [applySet, lookupB_append, lookupB_map_set,
    lookupB_filter_key (fun s => (lookupB doc s).isNone)]
  cases hd : lookupB doc k <;> cases hp : lookupB patch k <;> simp [hd, hp]

/-- C2 (on the modelled intent of run_query; the committed function is
unreachable behind a duplicated `try:`): for every filter and limit, when the
backend query operation fails, run_query returns the single-element list
`[{error: message}]` — and, being a total function of the modelled failure,
does not raise. -/
theorem run_query_error_sentinel
    (find : List (String × BValue) → Nat → Except String (List (List (String × BValue))))
    (query : List (String × BValue)) (lim : Nat) (msg : String)
    (h : find (fix_oid query) lim = Except.error msg) :
    run_query (some ()) find query lim = [[("error", BValue.str msg)]] ∧
    (run_query (some ()) find query lim).length = 1 ∧
    (∀ r ∈ run_query (some ()) find query lim, lookupB r "error" = some (BValue.str msg)) := by
  refine ⟨by simp [run_query, h], by simp [run_query, h], ?_⟩
  intro r hr
  simp only [run_query, h] at hr
  simp only [List.mem_singleton] at hr
  subst hr
  rfl

/-- Witness for run_query_error_sentinel: a backend that always raises. -/
theorem run_query_error_sentinel_witness :
    ((fun (_ : List (String × BValue)) (_ : Nat) =>
        (Except.error "boom" : Except String (List (List (String × BValue)))))
      (fix_oid []) 10 = Except.error "boom") ∧
    (run_query (some ()) (fun _ _ => Except.error "boom") [] 10 =
        [[("error", BValue.str "boom")]] ∧
      (run_query (some ()) (fun _ _ => Except.error "boom") [] 10).length = 1 ∧
      (∀ r ∈ run_query (some ()) (fun _ _ => Except.error "boom") [] 10,
        lookupB r "error" = some (BValue.str "boom"))) :=
  ⟨rfl, run_query_error_sentinel (fun _ _ => Except.error "boom") [] 10 "boom" rfl⟩

/-- C10: fix_oid on an `_id` entry whose string is not a valid 24-hex
identifier keeps the string unchanged (the bare `except` swallows the
`InvalidId`, so nothing is raised), and keeps every entry with a key other
than `_id` and a non-mapping value unchanged. -/
theorem fix_oid_invalid_id (s : String) (rest : List (String × BValue))
    (k : String) (v : BValue)
    (hs : parseOid s = none) (hk : k ≠ "_id") (hv : isDict v = false) :
    fix_oid (("_id", BValue.str s) :: rest) =
      ("_id", BValue.str s) :: fix_oid rest ∧
    fix_oid ((k, v) :: rest) = (k, v) :: fix_oid rest := by
  constructor
  · simp [fix_oid, oidConvert, hs]
  · cases v with
    | dict g => simp [isDict] at hv
    | str a => simp [fix_oid, hk]
    | oid a => simp [fix_oid, hk]
    | num a => simp [fix_oid, hk]

/-- Witness for fix_oid_invalid_id: an invalid identifier string and an
untouched ordinary entry. -/
theorem fix_oid_invalid_id_witness :
    parseOid "zz" = none ∧ ("author" : String) ≠ "_id" ∧
    isDict (BValue.num 1) = false ∧
    (fix_oid [("_id", BValue.str "zz"), ("x", BValue.num 2)] =
        ("_id", BValue.str "zz") :: fix_oid [("x", BValue.num 2)] ∧
      fix_oid [("author", BValue.num 1), ("x", BValue.num 2)] =
        ("author", BValue.num 1) :: fix_oid [("x", BValue.num 2)]) :=
  ⟨by decide, by decide, rfl,
    fix_oid_invalid_id "zz" [("x", BValue.num 2)] "author" (BValue.num 1)
      (by decide) (by decide) rfl⟩

theorem lookupB_cons_eq (k : String) (v : BValue) (rest : List (String × BValue)) :
    lookupB ((k, v) :: rest) k = some v := by
  simp [lookupB]

theorem lookupB_cons_ne {k1 k : String} (h : k1 ≠ k) (v : BValue)
    (rest : List (String × BValue)) :
    lookupB ((k1, v) :: rest) k = lookupB rest k := by
  simp [lookupB, h]

theorem lookupB_stringify (doc : List (String × BValue)) (v : BValue)
    (h : lookupB doc "_id" = some v) :
    lookupB (stringify_id doc) "_id" = some (BValue.str (bvalToString v)) := by
  induction doc with
  | nil => simp [lookupB] at h
  | cons kv rest ih =>
    obtain ⟨k1, v1⟩ := kv
    by_cases hk : k1 = "_id"
    · subst hk
      rw [lookupB_cons_eq] at h
      injection h with h
      subst h
      simp only [stringify_id, List.map_cons, if_pos rfl]
      exact lookupB_cons_eq _ _ _
    · rw [lookupB_cons_ne hk] at h
      simp only [stringify_id, List.map_cons, if_neg hk]
      rw [lookupB_cons_ne hk]
      exact ih h

/-- C7: the identifier round trip.  For a backend-generated identifier n, the
filter `{_id: str(n)}` is reinterpreted by fix_oid into the native identifier
(also through nested sub-mappings); with that filter the query, update and
delete operations all match the document holding `_id = n`, and query results
have the identifier converted back to exactly the original string. -/
theorem oid_roundtrip_matches (n : Nat) (doc : List (String × BValue))
    (coll : List (List (String × BValue)))
    (patch : List (String × BValue)) (raw : Bool)
    (hn : n < 16 ^ 24)
    (hdoc : lookupB doc "_id" = some (BValue.oid n))
    (hmem : doc ∈ coll) :
    fix_oid [("_id", BValue.str (oidToString n))] = [("_id", BValue.oid n)] ∧
    matchesFilter (fix_oid [("_id", BValue.str (oidToString n))]) doc = true ∧
    doc ∈ mongoFind coll (fix_oid [("_id", BValue.str (oidToString n))]) ∧
    (update_document [("_id", BValue.str (oidToString n))] patch raw).1 =
      [("_id", BValue.oid n)] ∧
    delete_document [("_id", BValue.str (oidToString n))] =
      [("_id", BValue.oid n)] ∧
    lookupB (stringify_id doc) "_id" =
      some (BValue.str (oidToString n)) ∧
    fix_oid [("f", BValue.dict [("_id", BValue.str (oidToString n))])] =
      [("f", BValue.dict [("_id", BValue.oid n)])] := by
  have hfix : fix_oid [("_id", BValue.str (oidToString n))] =
      [("_id", BValue.oid n)] := by
    simp [fix_oid, oidConvert, parseOid_oidToString n hn]
  have hmatch : matchesFilter [("_id", BValue.oid n)] doc = true := by
    simp [matchesFilter, hdoc, bvalEq]
  refine ⟨hfix, by rw [hfix]; exact hmatch, ?_, ?_, ?_, ?_, ?_⟩
  · rw [hfix]
    exact List.mem_filter.mpr ⟨hmem, hmatch⟩
  · exact hfix
  · exact hfix
  · exact lookupB_stringify doc (BValue.oid n) hdoc
  · simp [fix_oid, oidConvert, parseOid_oidToString n hn]

/-- Witness for oid_roundtrip_matches: identifier 0 and a concrete document. -/
theorem oid_roundtrip_matches_witness :
    ((0 : Nat) < 16 ^ 24 ∧
      lookupB [("_id", BValue.oid 0), ("x", BValue.num 1)] "_id" =
        some (BValue.oid 0) ∧
      [("_id", BValue.oid 0), ("x", BValue.num 1)] ∈
        [[("_id", BValue.oid 0), ("x", BValue.num 1)]]) ∧
    (fix_oid [("_id", BValue.str (oidToString 0))] = [("_id", BValue.oid 0)] ∧
      matchesFilter (fix_oid [("_id", BValue.str (oidToString 0))])
        [("_id", BValue.oid 0), ("x", BValue.num 1)] = true ∧
      [("_id", BValue.oid 0), ("x", BValue.num 1)] ∈
        mongoFind [[("_id", BValue.oid 0), ("x", BValue.num 1)]]
          (fix_oid [("_id", BValue.str (oidToString 0))]) ∧
      (update_document [("_id", BValue.str (oidToString 0))] [] false).1 =
        [("_id", BValue.oid 0)] ∧
      delete_document [("_id", BValue.str (oidToString 0))] =
        [("_id", BValue.oid 0)] ∧
      lookupB (stringify_id [("_id", BValue.oid 0), ("x", BValue.num 1)]) "_id" =
        some (BValue.str (oidToString 0)) ∧
      fix_oid [("f", BValue.dict [("_id", BValue.str (oidToString 0))])] =
        [("f", BValue.dict [("_id", BValue.oid 0)])]) :=
  ⟨⟨by decide, rfl, List.mem_singleton.mpr rfl⟩,
    oid_roundtrip_matches 0 [("_id", BValue.oid 0), ("x", BValue.num 1)]
      [[("_id", BValue.oid 0), ("x", BValue.num 1)]] [] false
      (by decide) rfl (List.mem_singleton.mpr rfl)⟩

/-- C9: Store.update with isRaw=false wraps the patch in the field-level
`$set` operation, under whose backend semantics exactly the fields named in
the patch are overwritten and every other field keeps its value; in
particular patch `{x: 1}` on a document `{x: 0, y: 2}` yields `{x: 1, y: 2}`. -/
theorem update_set_wrap (fq patch doc : List (String × BValue)) (k : String) :
    (update_document fq patch false).2 = [("$set", BValue.dict patch)] ∧
    applyUpdateOp (update_document fq patch false).2 doc =
      some (applySet doc patch) ∧
    lookupB (applySet doc patch) k =
      (match lookupB patch k with
       | some v => some v
       | none => lookupB doc k) ∧
    applySet [("x", BValue.num 0), ("y", BValue.num 2)] [("x", BValue.num 1)] =
      [("x", BValue.num 1), ("y", BValue.num 2)] :=
  ⟨rfl, rfl, lookupB_applySet doc patch k, rfl⟩

end RedditRT
